import Mathlib

/-!
Verification of `manipulate_pdf.py`: a shallow embedding in Lean 4 of the
script's three functions (`text_wrap`, `get_image_description`,
`extract_pdf`) together with proofs of the specification's claims about
them.

Python strings are modelled as `List Char` (`PyStr`), so that the string
operations the source uses (`str.split(' ')`, `str.strip()`, concatenation)
can be defined recursively and reasoned about by induction.  Fallible
Python values (`None` vs a value) are modelled with `Option`.  PIL images
are modelled as an inductive type recording which library filters were
applied, and the per-image pipeline of `extract_pdf` is modelled as a
state-passing function over the shared temporary file's contents.
-/

/-- A Python string: a list of characters. -/
abbrev PyStr := List Char

/-- Python's whitespace set as used by `str.strip()` (space, tab, newline,
carriage return, vertical tab, form feed). -/
def isWS (c : Char) : Bool :=
  c = ' ' || c = '\t' || c = '\n' || c = '\r' || c = '\x0b' || c = '\x0c'

/-- Python's `s.split(c)` for a single separator character described by the
predicate `p`: splits at every separator occurrence, keeping empty chunks
(`''.split(' ') == ['']`, `'a  b'.split(' ') == ['a', '', 'b']`). -/
def splitP (p : Char → Bool) : PyStr → List PyStr
  | [] => [[]]
  | c :: rest =>
    if p c then [] :: splitP p rest
    else
      match splitP p rest with
      | [] => [[c]]
      | w :: ws => (c :: w) :: ws

/-- The space character, the separator `text.split(' ')` splits on. -/
def isSpace (c : Char) : Bool := c = ' '

/-- Model of `text.split(' ')` from line 84 of the source. -/
def splitSpace : PyStr → List PyStr := splitP isSpace

/-- Python's `str.strip()`: drop whitespace from both ends. -/
def pyStrip (l : PyStr) : PyStr :=
  ((l.dropWhile isWS).reverse.dropWhile isWS).reverse

/-- The 4-tuple returned by PIL's `font.getbbox(s)`. -/
structure BBox where
  x0 : Int
  y0 : Int
  x1 : Int
  y1 : Int

/-- A PIL `ImageFont`: all the source uses of it is `getbbox`. -/
structure Font where
  getbbox : PyStr → BBox

/-- The difference `bbox[2] - bbox[0]`, the rendered width the source computes from
`font.getbbox` (lines 89-90, 179-180). -/
def widthOf (f : Font) (s : PyStr) : Int :=
  (f.getbbox s).x1 - (f.getbbox s).x0

/-- The `while i < len(words)` loop of `text_wrap` (lines 85-98), modelled by
structural recursion on the remaining words.  Note the source's bug is kept
verbatim: each iteration measures `font.getbbox(text)` — the WHOLE original
text — not the candidate line `test_line`.  The final `lines.append(line.strip())`
of line 98 is the base case. -/
def wrapGo (font : Font) (text : PyStr) (max_width : Int) :
    List PyStr → PyStr → List PyStr
  | [], line => [pyStrip line]
  | w :: rest, line =>
    let test_line := line ++ w ++ [' ']
    let bbox := font.getbbox text
    let text_width := bbox.x1 - bbox.x0
    if text_width > max_width then
      pyStrip line :: wrapGo font text max_width rest (w ++ [' '])
    else
      wrapGo font text max_width rest test_line

/-- Model of `text_wrap(text, font, max_width)` (lines 71-99).  `none` models a Python
`None` argument; the source returns `[]` in that case (lines 79-81). -/
def text_wrap (text : Option PyStr) (font : Option Font) (max_width : Option Int) :
    List PyStr :=
  match text, font, max_width with
  | some t, some f, some mw => wrapGo f t mw (splitSpace t) []
  | _, _, _ => []

/-- A font whose every character is 10 pixels wide, for concrete runs. -/
def mono10 : Font :=
  ⟨fun s => ⟨0, 0, 10 * s.length, 10⟩⟩

/-- The chunks of `splitP p` that are real words (non-empty). -/
def wordsP (p : Char → Bool) (l : PyStr) : List PyStr :=
  (splitP p l).filter (fun w => w ≠ [])

/-- The word sequence of a string: its maximal runs of non-whitespace
characters, in order. -/
def wsWords : PyStr → List PyStr := wordsP isWS

/-- Re-join chunks with one space after each; `joinWithTrailingSpace (splitSpace t)`
is `t ++ " "`, which is the shape of the accumulator `line` built by
`line + words[i] + ' '` in the source's loop. -/
def joinWithTrailingSpace : List PyStr → PyStr
  | [] => []
  | w :: ws => w ++ ' ' :: joinWithTrailingSpace ws

/-! ## The captioner: `get_image_description` (lines 11-68) -/

/-- A JSON value, as produced by `response.json()`. -/
inductive Json where
  | str (s : PyStr)
  | num (n : Int)
  | bool (b : Bool)
  | null
  | arr (xs : List Json)
  | obj (kvs : List (String × Json))

/-- Python `j[key]` on a parsed JSON object, `none` when the access would
raise (`KeyError` / `TypeError`). -/
def jGet : Json → String → Option Json
  | .obj kvs, k => kvs.lookup k
  | _, _ => none

/-- Python `j[i]` on a parsed JSON array, `none` when the access would raise
(`IndexError` / `TypeError`). -/
def jIdx : Json → Nat → Option Json
  | .arr xs, i => xs.get? i
  | _, _ => none

/-- The lookup `response['choices'][0]['message']['content']` (line 61); `none` when any
step would raise in Python (every such exception is caught by the
`except Exception` on line 63). -/
def extractContent (j : Json) : Option Json :=
  (((jGet j "choices").bind (fun c => jIdx c 0)).bind
    (fun m => jGet m "message")).bind (fun m => jGet m "content")

/-- The observable outcome of the `requests.post` call (line 53):
the call itself raises, or a response arrives whose body is parsed JSON
(`some j`) or malformed so that `.json()` raises (`none`).  The HTTP status
code is carried so claims can speak about non-2xx responses; the source
never reads it. -/
inductive HttpOutcome where
  | netError
  | response (status : Nat) (body : Option Json)

/-- Model of `get_image_description` (lines 11-68).  `path_exists` models
`os.path.exists(image_path)`; when false the source prints and falls off the
`return` on line 28 with Python `None` (modelled `none`).  Every exception in
the `try` block — network error, `.json()` on a malformed body, a missing
`choices[0].message.content` field — is caught and turned into `""`
(lines 63-65); the response's status code is never consulted. -/
def get_image_description (path_exists : Bool) (prompt : PyStr) (model : String)
    (openai_key : String) (max_tokens : Int) (outcome : HttpOutcome) : Option Json :=
  if !path_exists then none
  else
    match outcome with
    | .netError => some (.str [])
    | .response _ none => some (.str [])
    | .response _ (some j) =>
      match extractContent j with
      | some content => some content
      | none => some (.str [])

/-! ## The image pipeline: `extract_pdf` (lines 102-200) -/

/-- A PIL image, recording its provenance: the image decoded from the PDF
(`decoded id`), the result of each `pil_img.filter` / `pil_img.convert`
call, and the caption overlay drawn by `ImageDraw` (lines 172-185). -/
inductive Img where
  | decoded (id : Nat)
  | blurred (radius : Int) (i : Img)
  | embossed (i : Img)
  | grayed (i : Img)
  | monochromed (i : Img)
  | overlaid (lines : List PyStr) (i : Img)
deriving DecidableEq

/-- The four pixel filters of the transform chain. -/
inductive FilterTag where
  | blur
  | emboss
  | gray
  | mono
deriving DecidableEq

/-- The sequence of filters that were applied to produce an image, innermost
(first-applied) first.  The caption overlay is not a filter. -/
def filtersOf : Img → List FilterTag
  | .decoded _ => []
  | .blurred _ i => filtersOf i ++ [.blur]
  | .embossed i => filtersOf i ++ [.emboss]
  | .grayed i => filtersOf i ++ [.gray]
  | .monochromed i => filtersOf i ++ [.mono]
  | .overlaid _ i => filtersOf i

/-- The image underneath a caption overlay, if any. -/
def baseOf : Img → Img
  | .overlaid _ i => i
  | i => i

/-- The command-line configuration (`args`), resolved once by `argparse`
(lines 203-229).  `arial` models `ImageFont.truetype('arial.ttf', size)`. -/
structure Config where
  pdf_file : String
  verbose : Bool
  output_file : String
  blur : Int
  gray : Bool
  black : Bool
  emboss : Bool
  describe : Bool
  openai_key : String
  description_prompt : PyStr
  max_openai_tokens : Int
  font_size : Int
  arial : Int → Font

/-- Line 155-156: `if args.blur > 0: pil_img = pil_img.filter(ImageFilter.GaussianBlur(args.blur))`
(lines 155-156). -/
def blurStage (cfg : Config) (img : Img) : Img :=
  if cfg.blur > 0 then .blurred cfg.blur img else img

/-- Lines 159-160: `if args.emboss: pil_img = pil_img.filter(ImageFilter.EMBOSS)`. -/
def embossStage (cfg : Config) (img : Img) : Img :=
  if cfg.emboss then .embossed img else img

/-- Lines 163-164: `if args.gray: pil_img = pil_img.convert('L')`. -/
def grayStage (cfg : Config) (img : Img) : Img :=
  if cfg.gray then .grayed img else img

/-- Lines 167-168: `if args.black: pil_img = pil_img.convert('1')`. -/
def blackStage (cfg : Config) (img : Img) : Img :=
  if cfg.black then .monochromed img else img

/-- The transform chain, lines 155-170: the four `if` statements in source
order, each rebinding `pil_img`. -/
def applyFilters (cfg : Config) (img : Img) : Img :=
  blackStage cfg (grayStage cfg (embossStage cfg (blurStage cfg img)))

/-- The filters the configuration enables, listed in the spec's fixed order
blur, emboss, grayscale, monochrome (blur is enabled by a positive radius). -/
def enabledFilters (cfg : Config) : List FilterTag :=
  (if cfg.blur > 0 then [.blur] else []) ++
    (if cfg.emboss then [.emboss] else []) ++
      (if cfg.gray then [.gray] else []) ++
        (if cfg.black then [.mono] else [])

/-- The environment one image's captioning path runs in: whether
`pil_img.save(orig_tmp_path)` (line 142) succeeds, and what the HTTP request
for this image observes. -/
structure CaptionEnv where
  saveOk : Bool
  http : HttpOutcome

/-- One embedded image as the document walker hands it over: its decoded
pixel identity, its pixel width (`pil_img.width`, line 174), and its
captioning environment. -/
structure ImgInput where
  id : Nat
  width : Int
  env : CaptionEnv

/-- What processing one image produced: the snapshot whose bytes were sent
to the captioning service (if a request was made), the `description`
variable, the final image written to `tmp.jpg`, and whether
`page.insert_image` ran for it. -/
structure ProcStep where
  id : Nat
  sent : Option Img
  description : Option Json
  finalImg : Img
  inserted : Bool

/-- The `description` value as handed to `text_wrap` (line 176).  A
non-string JSON value here would raise at `text.split` inside `text_wrap`;
the remote service's `content` field is a string, and no claim concerns the
drawn lines' content. -/
def jsonToText : Option Json → Option PyStr
  | none => none
  | some (.str s) => some s
  | some _ => some []

/-- The body of the inner `for img_index, img in enumerate(image_list)` loop
(lines 129-194), for one image.  `origTmp` is the current content of the
shared temporary file `o_tmp.jpg`: `none` when the file does not exist.
Returns the step's observables and the file's content afterwards.
Order follows the source: decode, describe block (snapshot save — which on
failure is only logged, leaving the file as it was — request, removal of the
file when it exists), filter chain, caption overlay, save to `tmp.jpg` and
`insert_image` at the original bbox. -/
def processImage (cfg : Config) (inp : ImgInput) (origTmp : Option Img) :
    ProcStep × Option Img :=
  let pil_img := Img.decoded inp.id
  let res :=
    if cfg.describe then
      let disk := if inp.env.saveOk then some pil_img else origTmp
      match disk with
      | none =>
        ((none : Option Img),
         get_image_description false cfg.description_prompt "gpt-4-vision-preview"
           cfg.openai_key cfg.max_openai_tokens inp.env.http,
         (none : Option Img))
      | some snap =>
        ((some snap),
         get_image_description true cfg.description_prompt "gpt-4-vision-preview"
           cfg.openai_key cfg.max_openai_tokens inp.env.http,
         (none : Option Img))
    else ((none : Option Img), (none : Option Json), origTmp)
  let description := res.2.1
  let pil2 := applyFilters cfg pil_img
  let pil3 :=
    if cfg.describe then
      Img.overlaid
        (text_wrap (jsonToText description) (some (cfg.arial cfg.font_size))
          (some inp.width))
        pil2
    else pil2
  ({ id := inp.id, sent := res.1, description := description,
     finalImg := pil3, inserted := true }, res.2.2)

/-- The document walk over all embedded images in order, threading the
shared `o_tmp.jpg` file state. -/
def runImages (cfg : Config) : List ImgInput → Option Img → List ProcStep
  | [], _ => []
  | inp :: rest, tmp =>
    let pr := processImage cfg inp tmp
    pr.1 :: runImages cfg rest pr.2

/-- The externally visible actions of `extract_pdf`, in order. -/
inductive Event where
  | abortNoKey
  | openedDoc (path : String)
  | insertedImage (id : Nat)
  | savedDoc (path : String)
deriving DecidableEq

/-- Model of `extract_pdf` (lines 102-200) as its trace of externally visible
actions.  The OpenAI-key check (lines 112-116) runs before `fitz.open`
(line 120); `not args.openai_key` is true exactly when the key string is
empty.  Then every embedded image of every page is processed and
re-inserted, and the document is saved once at the end (line 199). -/
def extract_pdf (cfg : Config) (pages : List (List ImgInput)) : List Event :=
  if cfg.describe && cfg.openai_key == "" then [.abortNoKey]
  else
    .openedDoc cfg.pdf_file ::
      ((runImages cfg pages.flatten none).map (fun s => .insertedImage s.id) ++
        [.savedDoc cfg.output_file])

/-! ## Concrete fixtures for witnesses -/

/-- A degenerate font (every string measures 0 wide). -/
def font0 : Font := ⟨fun _ => ⟨0, 0, 0, 0⟩⟩

/-- A configuration with every filter and captioning enabled. -/
def cfg0 : Config :=
  { pdf_file := "in.pdf", verbose := false, output_file := "output.pdf",
    blur := 3, gray := true, black := true, emboss := true, describe := true,
    openai_key := "sk-test", description_prompt := [],
    max_openai_tokens := 300, font_size := 18, arial := fun _ => font0 }

/-- Like `cfg0` but with no OpenAI key supplied. -/
def cfgNoKey : Config := { cfg0 with openai_key := "" }

/-- Like `cfg0` but with blur radius 0. -/
def cfgBlur0 : Config := { cfg0 with blur := 0 }

/-- A captioning environment whose HTTP request fails at the network level. -/
def env0 : CaptionEnv := ⟨true, .netError⟩

/-- A single embedded image in environment `env0`. -/
def inp0 : ImgInput := ⟨0, 100, env0⟩

/-- A parsed success response: `{"choices": [{"message": {"content": "hello"}}]}`. -/
def jGood : Json :=
  .obj [("choices", .arr [.obj [("message", .obj [("content", .str "hello".data)])]])]

/-! ## Claims about `text_wrap` -/

/-- C7: `text_wrap` called with `None` for text, font, or max width returns
the empty list (and, being total, does not raise). -/
theorem c7_text_wrap_none (t : Option PyStr) (f : Option Font) (mw : Option Int)
    (h : t = none ∨ f = none ∨ mw = none) : text_wrap t f mw = [] := by
  rcases h with rfl | rfl | rfl
  · cases f <;> cases mw <;> rfl
  · cases t <;> cases mw <;> rfl
  · cases t <;> cases f <;> rfl

/-- Witness for C7 at a concrete input. -/
theorem c7_witness :
    ((none : Option PyStr) = none ∨ some mono10 = none ∨ some (15 : Int) = none) ∧
      text_wrap none (some mono10) (some 15) = [] :=
  ⟨Or.inl rfl, c7_text_wrap_none none (some mono10) (some 15) (Or.inl rfl)⟩

/-- C1 fails on the source: the loop measures the whole text
(`font.getbbox(text)`, line 89) instead of the candidate line, so with a
10-pixels-per-character font and max width 15 the text "aa bb" wraps to
`['', 'aa', 'bb']`, and the produced line "aa" renders 20 > 15 pixels wide. -/
theorem c1_width_bound_fails_on_code :
    text_wrap (some "aa bb".data) (some mono10) (some 15) =
        [[], "aa".data, "bb".data] ∧
      "aa".data ∈ text_wrap (some "aa bb".data) (some mono10) (some 15) ∧
      widthOf mono10 "aa".data > 15 := by
  refine ⟨by decide, by decide, by decide⟩

/-! ## Claims about the captioner -/

/-- C5 as stated fails on the source: the status code of the response is
never read, so a non-2xx (here 500) response whose body is well-formed JSON
with a `choices[0].message.content` field makes `get_image_description`
return that content — "hello", not the empty string. -/
theorem c5_counterexample :
    get_image_description true [] "gpt-4-vision-preview" "k" 300
        (HttpOutcome.response 500 (some jGood)) = some (Json.str "hello".data) ∧
      ¬ (200 ≤ 500 ∧ 500 < 300) ∧ "hello".data ≠ ([] : PyStr) := by
  refine ⟨rfl, by decide, by decide⟩

/-- C5 amended: for every captioning request whose HTTP response is a
network error, malformed JSON, or parsed JSON lacking the
`choices[0].message.content` field, `get_image_description` returns the
empty string and does not raise.  (The status code is never examined, so a
non-2xx response with a well-formed body returns its content instead.) -/
theorem c5_failure_returns_empty (prompt : PyStr) (model openai_key : String)
    (max_tokens : Int) (outcome : HttpOutcome)
    (h : outcome = .netError ∨ (∃ s, outcome = .response s none) ∨
      (∃ s j, outcome = .response s (some j) ∧ extractContent j = none)) :
    get_image_description true prompt model openai_key max_tokens outcome =
      some (Json.str []) := by
  rcases h with rfl | ⟨s, rfl⟩ | ⟨s, j, rfl, hj⟩ <;>
    simp [get_image_description, *]

/-- Witness for the amended C5 at a concrete failing outcome. -/
theorem c5_witness :
    get_image_description true [] "gpt-4-vision-preview" "k" 300
      HttpOutcome.netError = some (Json.str []) :=
  c5_failure_returns_empty [] "gpt-4-vision-preview" "k" 300
    HttpOutcome.netError (Or.inl rfl)

/-- C10: when the image path does not exist, `get_image_description` returns
Python `None` (the bare `return` on line 28), not the empty string used for
the other failure modes. -/
theorem c10_missing_path_returns_none (prompt : PyStr) (model openai_key : String)
    (max_tokens : Int) (outcome : HttpOutcome) :
    get_image_description false prompt model openai_key max_tokens outcome = none ∧
      get_image_description false prompt model openai_key max_tokens outcome ≠
        some (Json.str []) :=
  ⟨rfl, by simp [get_image_description]⟩

/-! ## Claims about the transform chain -/

/-- C6: when the configured blur radius is 0, the blur stage (lines 155-156)
leaves the image identical to its input. -/
theorem c6_blur_zero_identity (cfg : Config) (img : Img) (h : cfg.blur = 0) :
    blurStage cfg img = img := by
  simp [blurStage, h]

/-- Witness for C6 at a concrete configuration and image. -/
theorem c6_witness :
    cfgBlur0.blur = 0 ∧ blurStage cfgBlur0 (Img.decoded 0) = Img.decoded 0 :=
  ⟨rfl, c6_blur_zero_identity cfgBlur0 (Img.decoded 0) rfl⟩

/-- C2: the transform chain applies exactly the enabled filters in the fixed
order blur, emboss, grayscale, monochrome: the applied-filter trace equals
`enabledFilters cfg`, which is a sublist of the fixed order; each filter
appears in the trace iff its option enables it; and when grayscale and
monochrome are both enabled, the monochrome conversion is applied to the
grayscale result. -/
theorem c2_filter_chain (cfg : Config) (n : Nat) :
    filtersOf (applyFilters cfg (Img.decoded n)) = enabledFilters cfg ∧
      List.Sublist (enabledFilters cfg)
        [FilterTag.blur, FilterTag.emboss, FilterTag.gray, FilterTag.mono] ∧
      (FilterTag.blur ∈ filtersOf (applyFilters cfg (Img.decoded n)) ↔ cfg.blur > 0) ∧
      (FilterTag.emboss ∈ filtersOf (applyFilters cfg (Img.decoded n)) ↔ cfg.emboss = true) ∧
      (FilterTag.gray ∈ filtersOf (applyFilters cfg (Img.decoded n)) ↔ cfg.gray = true) ∧
      (FilterTag.mono ∈ filtersOf (applyFilters cfg (Img.decoded n)) ↔ cfg.black = true) ∧
      (cfg.gray = true → cfg.black = true →
        ∃ i, applyFilters cfg (Img.decoded n) = Img.monochromed (Img.grayed i)) := by
  by_cases hb : cfg.blur > 0 <;>
    rcases he : cfg.emboss <;> rcases hg : cfg.gray <;> rcases hk : cfg.black <;>
      simp [applyFilters, blurStage, embossStage, grayStage, blackStage,
        enabledFilters, filtersOf, hb, he, hg, hk]

/-- Witness for C2: with everything enabled, monochrome is applied to the
grayscale result. -/
theorem c2_witness :
    ∃ i, applyFilters cfg0 (Img.decoded 0) = Img.monochromed (Img.grayed i) :=
  (c2_filter_chain cfg0 0).2.2.2.2.2.2 rfl rfl

/-! ## Claims about `extract_pdf` -/

/-- C4: with `--describe` set and no OpenAI key, the run aborts with the
user-facing message before opening the document: the trace is exactly the
abort event, so the document is never opened, no image is processed, and no
output file is saved. -/
theorem c4_describe_without_key_aborts (cfg : Config) (pages : List (List ImgInput))
    (hd : cfg.describe = true) (hk : cfg.openai_key = "") :
    extract_pdf cfg pages = [Event.abortNoKey] ∧
      (∀ p, Event.openedDoc p ∉ extract_pdf cfg pages) ∧
      (∀ i, Event.insertedImage i ∉ extract_pdf cfg pages) ∧
      (∀ p, Event.savedDoc p ∉ extract_pdf cfg pages) := by
  have h1 : extract_pdf cfg pages = [Event.abortNoKey] := by
    simp [extract_pdf, hd, hk]
  refine ⟨h1, ?_, ?_, ?_⟩ <;> intro x <;> rw [h1] <;> simp

/-- Witness for C4 at a concrete configuration with one embedded image. -/
theorem c4_witness :
    extract_pdf cfgNoKey [[inp0]] = [Event.abortNoKey] ∧
      Event.openedDoc "in.pdf" ∉ extract_pdf cfgNoKey [[inp0]] :=
  ⟨(c4_describe_without_key_aborts cfgNoKey [[inp0]] rfl rfl).1,
    (c4_describe_without_key_aborts cfgNoKey [[inp0]] rfl rfl).2.1 "in.pdf"⟩

/-! ## Word-sequence lemmas for the text-wrap claims -/

theorem splitP_ne_nil (p : Char → Bool) (l : PyStr) : splitP p l ≠ [] := by
  cases l with
  | nil => simp [splitP]
  | cons c rest =>
    simp only [splitP]
    split
    · simp
    · split <;> simp

theorem splitP_cons_neg (p : Char → Bool) (c : Char) (l : PyStr) (hc : p c = false) :
    ∃ w ws, splitP p l = w :: ws ∧ splitP p (c :: l) = (c :: w) :: ws := by
  obtain ⟨w, ws, hw⟩ : ∃ w ws, splitP p l = w :: ws := by
    rcases h : splitP p l with _ | ⟨w, ws⟩
    · exact absurd h (splitP_ne_nil p l)
    · exact ⟨w, ws, rfl⟩
  exact ⟨w, ws, hw, by simp [splitP, hc, hw]⟩

theorem splitP_append_sep (p : Char → Bool) (c : Char) (hc : p c = true)
    (a b : PyStr) : splitP p (a ++ c :: b) = splitP p a ++ splitP p b := by
  induction a with
  | nil => simp [splitP, hc]
  | cons d a ih =>
    by_cases hd : p d = true
    · simp [splitP, hd, ih]
    · have hd' : p d = false := by simpa using hd
      obtain ⟨w, ws, hw, hc1⟩ := splitP_cons_neg p d (a ++ c :: b) hd'
      obtain ⟨w', ws', hw', hc2⟩ := splitP_cons_neg p d a hd'
      rw [List.cons_append, hc1, hc2]
      rw [hw', hw] at ih
      simp only [List.cons_append] at ih
      injection ih with h1 h2
      subst h1
      subst h2
      simp

theorem wordsP_append_sep (p : Char → Bool) (c : Char) (hc : p c = true)
    (l : PyStr) : wordsP p (l ++ [c]) = wordsP p l := by
  have h := splitP_append_sep p c hc l []
  simp [wordsP, h, splitP]

theorem wordsP_cons_sep (p : Char → Bool) (c : Char) (hc : p c = true)
    (l : PyStr) : wordsP p (c :: l) = wordsP p l := by
  simp [wordsP, splitP, hc]

theorem wordsP_sep_mid (p : Char → Bool) (c : Char) (hc : p c = true)
    (a b : PyStr) : wordsP p (a ++ c :: b) = wordsP p a ++ wordsP p b := by
  simp [wordsP, splitP_append_sep p c hc a b, List.filter_append]

theorem wordsP_append_all_sep (p : Char → Bool) :
    ∀ (s l : PyStr), (∀ c ∈ s, p c = true) → wordsP p (l ++ s) = wordsP p l
  | [], l, _ => by simp
  | c :: s, l, hs => by
    have hc : p c = true := hs c (by simp)
    have h2 : l ++ c :: s = (l ++ [c]) ++ s := by simp
    rw [h2, wordsP_append_all_sep p s (l ++ [c]) (fun d hd => hs d (by simp [hd])),
      wordsP_append_sep p c hc l]

theorem wordsP_dropWhile (p : Char → Bool) (l : PyStr) :
    wordsP p (l.dropWhile p) = wordsP p l := by
  induction l with
  | nil => rfl
  | cons c l ih =>
    by_cases hc : p c = true
    · rw [List.dropWhile_cons_of_pos hc, ih, wordsP_cons_sep p c hc]
    · rw [List.dropWhile_cons_of_neg hc]

theorem wsWords_pyStrip (l : PyStr) : wsWords (pyStrip l) = wsWords l := by
  have hfront : wsWords (l.dropWhile isWS) = wsWords l := wordsP_dropWhile isWS l
  set x := l.dropWhile isWS with hx
  have hx2 : x = (x.reverse.dropWhile isWS).reverse ++ (x.reverse.takeWhile isWS).reverse := by
    conv_lhs => rw [← List.reverse_reverse x, ← List.takeWhile_append_dropWhile (p := isWS) (l := x.reverse)]
    rw [List.reverse_append]
  have hs : ∀ c ∈ (x.reverse.takeWhile isWS).reverse, isWS c = true := by
    intro c hcmem
    exact List.mem_takeWhile_imp (List.mem_reverse.mp hcmem)
  calc wsWords (pyStrip l)
      = wsWords ((x.reverse.dropWhile isWS).reverse) := rfl
    _ = wsWords ((x.reverse.dropWhile isWS).reverse ++ (x.reverse.takeWhile isWS).reverse) :=
        (wordsP_append_all_sep isWS _ _ hs).symm
    _ = wsWords x := by rw [← hx2]
    _ = wsWords l := hfront

theorem join_splitSpace (t : PyStr) :
    joinWithTrailingSpace (splitSpace t) = t ++ [' '] := by
  induction t with
  | nil => rfl
  | cons c t ih =>
    by_cases hc : isSpace c = true
    · have hc' : c = ' ' := by simpa [isSpace] using hc
      subst hc'
      simp only [splitSpace, splitP, isSpace] at ih ⊢
      simp [joinWithTrailingSpace, ih]
    · have hc' : isSpace c = false := by simpa using hc
      obtain ⟨w, ws, hw, hcons⟩ := splitP_cons_neg isSpace c t hc'
      simp only [splitSpace] at ih ⊢
      rw [hcons, joinWithTrailingSpace]
      rw [hw, joinWithTrailingSpace] at ih
      simp only [List.cons_append, List.append_assoc] at ih ⊢
      rw [ih]

theorem wsWords_join (ws : List PyStr) :
    wsWords (joinWithTrailingSpace ws) = (ws.map wsWords).flatten := by
  induction ws with
  | nil => rfl
  | cons w ws ih =>
    have h : wsWords (w ++ ' ' :: joinWithTrailingSpace ws) =
        wsWords w ++ wsWords (joinWithTrailingSpace ws) :=
      wordsP_sep_mid isWS ' ' (by decide) w (joinWithTrailingSpace ws)
    rw [joinWithTrailingSpace, h, ih]
    simp

theorem wsWords_trailing_space (t : PyStr) : wsWords (t ++ [' ']) = wsWords t :=
  wordsP_append_all_sep isWS [' '] t (by intro c hc; simp at hc; subst hc; decide)

theorem wsWords_splitSpace (t : PyStr) :
    ((splitSpace t).map wsWords).flatten = wsWords t := by
  rw [← wsWords_join, join_splitSpace, wsWords_trailing_space]

theorem wrapGo_narrow (f : Font) (t : PyStr) (mw : Int)
    (h : ¬ widthOf f t > mw) (ws : List PyStr) (line : PyStr) :
    wrapGo f t mw ws line = [pyStrip (line ++ joinWithTrailingSpace ws)] := by
  have h' : ¬ ((f.getbbox t).x1 - (f.getbbox t).x0 > mw) := h
  induction ws generalizing line with
  | nil => simp [wrapGo, joinWithTrailingSpace]
  | cons w ws ih =>
    rw [wrapGo]
    simp only [if_neg h']
    rw [ih (line ++ w ++ [' '])]
    simp [joinWithTrailingSpace, List.append_assoc]

theorem wrapGo_wide (f : Font) (t : PyStr) (mw : Int)
    (h : widthOf f t > mw) (ws : List PyStr) (line : PyStr) :
    wrapGo f t mw ws line =
      pyStrip line :: ws.map (fun w => pyStrip (w ++ [' '])) := by
  have h' : ((f.getbbox t).x1 - (f.getbbox t).x0 > mw) := h
  induction ws generalizing line with
  | nil => simp [wrapGo]
  | cons w ws ih =>
    rw [wrapGo]
    simp only [if_pos h']
    rw [ih (w ++ [' '])]
    simp

/-- C8: concatenating the words of all lines `text_wrap` returns, in order
and ignoring the introduced line breaks, reproduces the word sequence of the
original text (its maximal whitespace-free runs, in order). -/
theorem c8_words_preserved (t : PyStr) (f : Font) (mw : Int) :
    ((text_wrap (some t) (some f) (some mw)).map wsWords).flatten = wsWords t := by
  simp only [text_wrap]
  by_cases h : widthOf f t > mw
  · rw [wrapGo_wide f t mw h]
    simp only [List.map_cons, List.flatten_cons, List.map_map]
    have h0 : wsWords (pyStrip []) = [] := rfl
    rw [h0]
    have hmap : (splitSpace t).map (wsWords ∘ fun w => pyStrip (w ++ [' '])) =
        (splitSpace t).map wsWords := by
      apply List.map_congr_left
      intro w _
      simp only [Function.comp]
      rw [wsWords_pyStrip, wsWords_trailing_space]
    rw [hmap, List.nil_append, wsWords_splitSpace]
  · rw [wrapGo_narrow f t mw h]
    simp only [List.map_cons, List.map_nil, List.flatten_cons, List.flatten_nil,
      List.append_nil, List.nil_append]
    rw [wsWords_pyStrip, join_splitSpace, wsWords_trailing_space]

/-! ## Per-image pipeline lemmas for the captioning claims -/

theorem filtersOf_applyFilters (cfg : Config) (n : Nat) :
    filtersOf (applyFilters cfg (Img.decoded n)) = enabledFilters cfg := by
  by_cases hb : cfg.blur > 0 <;>
    rcases he : cfg.emboss <;> rcases hg : cfg.gray <;> rcases hk : cfg.black <;>
      simp [applyFilters, blurStage, embossStage, grayStage, blackStage,
        enabledFilters, filtersOf, hb, he, hg, hk]

theorem processImage_tmp_none (cfg : Config) (inp : ImgInput) :
    (processImage cfg inp none).2 = none := by
  rcases hd : cfg.describe <;> rcases hs : inp.env.saveOk <;>
    simp [processImage, hd, hs]

theorem processImage_id (cfg : Config) (inp : ImgInput) (tmp : Option Img) :
    (processImage cfg inp tmp).1.id = inp.id := by
  rcases hd : cfg.describe <;> rcases hs : inp.env.saveOk <;> cases tmp <;>
    simp [processImage, hd, hs]

theorem processImage_sent (cfg : Config) (inp : ImgInput) :
    (processImage cfg inp none).1.sent = none ∨
      (processImage cfg inp none).1.sent = some (Img.decoded inp.id) := by
  rcases hd : cfg.describe <;> rcases hs : inp.env.saveOk <;>
    simp [processImage, hd, hs]

theorem processImage_final (cfg : Config) (inp : ImgInput) (tmp : Option Img) :
    (processImage cfg inp tmp).1.inserted = true ∧
      ((processImage cfg inp tmp).1.finalImg = applyFilters cfg (Img.decoded inp.id) ∨
        ∃ ls, (processImage cfg inp tmp).1.finalImg =
          Img.overlaid ls (applyFilters cfg (Img.decoded inp.id))) := by
  rcases hd : cfg.describe <;> rcases hs : inp.env.saveOk <;> cases tmp <;>
    simp [processImage, hd, hs]

theorem runImages_mem (cfg : Config) :
    ∀ (inputs : List ImgInput) (tmp : Option Img) (step : ProcStep),
      step ∈ runImages cfg inputs tmp →
      ∃ inp tmp2, inp ∈ inputs ∧ step = (processImage cfg inp tmp2).1
  | [], _, step, h => absurd h (by simp [runImages])
  | inp :: rest, tmp, step, h => by
    simp only [runImages] at h
    rcases List.mem_cons.mp h with heq | hmem
    · exact ⟨inp, tmp, List.mem_cons_self inp rest, heq⟩
    · obtain ⟨i2, t2, hi, hs2⟩ := runImages_mem cfg rest _ step hmem
      exact ⟨i2, t2, List.mem_cons_of_mem _ hi, hs2⟩

theorem runImages_sent_decoded (cfg : Config) :
    ∀ (inputs : List ImgInput) (step : ProcStep),
      step ∈ runImages cfg inputs none →
      ∀ s : Img, step.sent = some s → s = Img.decoded step.id
  | [], step, h => absurd h (by simp [runImages])
  | inp :: rest, step, h => by
    simp only [runImages] at h
    rcases List.mem_cons.mp h with heq | hmem
    · subst heq
      intro s hs
      rcases processImage_sent cfg inp with hnone | hsome
      · rw [hnone] at hs; cases hs
      · rw [hsome] at hs
        injection hs with hs1
        rw [← hs1, processImage_id]
    · rw [processImage_tmp_none] at hmem
      exact runImages_sent_decoded cfg rest step hmem

/-- C3: whenever bytes are sent to the remote description service for an
image, they are the snapshot of that image exactly as decoded from the
document — no blur, emboss, grayscale, or monochrome filter has been applied
to it.  Holds for every run of the document walk (started with no leftover
temporary file), including runs where earlier snapshot saves failed. -/
theorem c3_caption_sees_prefilter_image (cfg : Config) (inputs : List ImgInput)
    (step : ProcStep) (hstep : step ∈ runImages cfg inputs none)
    (s : Img) (hs : step.sent = some s) :
    s = Img.decoded step.id ∧ filtersOf s = [] := by
  have h := runImages_sent_decoded cfg inputs step hstep s hs
  exact ⟨h, by rw [h]; rfl⟩

/-- Witness for C3: a concrete captioning-enabled run whose one image's
request payload is its decoded snapshot. -/
theorem c3_witness :
    Img.decoded 0 = Img.decoded (processImage cfg0 inp0 none).1.id ∧
      filtersOf (Img.decoded 0) = [] :=
  c3_caption_sees_prefilter_image cfg0 [inp0] (processImage cfg0 inp0 none).1
    (by simp [runImages]) (Img.decoded 0) rfl

/-- C9: for every image of every run — whatever the captioning path did
(snapshot save failure, network error, malformed or incomplete response) —
the image is still re-inserted into its page, and its final image carries
exactly the configured filters: it is the filtered decoded image, possibly
under a caption overlay. -/
theorem c9_caption_failures_never_block (cfg : Config) (inputs : List ImgInput)
    (step : ProcStep) (hstep : step ∈ runImages cfg inputs none) :
    step.inserted = true ∧
      filtersOf step.finalImg = enabledFilters cfg ∧
      (step.finalImg = applyFilters cfg (Img.decoded step.id) ∨
        ∃ ls, step.finalImg = Img.overlaid ls (applyFilters cfg (Img.decoded step.id))) := by
  obtain ⟨inp, tmp2, _, rfl⟩ := runImages_mem cfg inputs none step hstep
  obtain ⟨hins, hfin⟩ := processImage_final cfg inp tmp2
  have hid := processImage_id cfg inp tmp2
  refine ⟨hins, ?_, ?_⟩
  · rcases hfin with hf | ⟨ls, hf⟩ <;> rw [hf, ← hid]
    · exact filtersOf_applyFilters cfg _
    · simp only [filtersOf]
      exact filtersOf_applyFilters cfg _
  · rw [hid]
    exact hfin

/-- Witness for C9: a concrete run whose captioning request fails at the
network level, yet the image is inserted with all configured filters. -/
theorem c9_witness :
    (processImage cfg0 inp0 none).1.inserted = true ∧
      filtersOf (processImage cfg0 inp0 none).1.finalImg = enabledFilters cfg0 ∧
      ((processImage cfg0 inp0 none).1.finalImg =
          applyFilters cfg0 (Img.decoded (processImage cfg0 inp0 none).1.id) ∨
        ∃ ls, (processImage cfg0 inp0 none).1.finalImg =
          Img.overlaid ls (applyFilters cfg0 (Img.decoded (processImage cfg0 inp0 none).1.id))) :=
  c9_caption_failures_never_block cfg0 [inp0] (processImage cfg0 inp0 none).1
    (by simp [runImages])
